import Mathlib

set_option maxRecDepth 8000

/- Shallow embedding of the batch-construction pipeline of
   src/code/data_batcher.py (functions split_by_whitespace,
   intstr_to_intlist, sentence_to_token_ids, padded, paddedBool, padded2,
   refill_batches, get_batch_generator and the Batch record).

   Modelling conventions:
   - a data file is modelled as the list of its lines (strings without the
     trailing newline, which the whitespace tokenizer ignores anyway); the
     reading loop of refill_batches stops as soon as one of the three files
     is exhausted, so the three files are modelled as the list of line
     triples obtained by zipping the three line lists;
   - Python floats are modelled as rationals (the term-frequency formula
     is exact rational arithmetic);
   - a fatal event (a ValueError from int(), the ValueError raised by
     max() on the empty frequency distribution of an empty context line,
     or the failed assert on the answer span) makes the whole run None;
   - random.shuffle is modelled as an arbitrary permutation of the batch
     list, supplied as a parameter. -/

/-- Modelled from the spec: the reserved padding id of the vocab module,
which is not under src/ (spec section 3: two reserved ids PAD and UNK; the
character table of refill_batches starts at 2, matching PAD = 0, UNK = 1). -/
def PAD_ID : Nat := 0

/-- Modelled from the spec: the reserved out-of-vocabulary id of the vocab
module, which is not under src/. -/
def UNK_ID : Nat := 1

/-- Helper for the whitespace tokenizer: walks the characters, collecting
the current maximal run of non-whitespace characters (in reverse). -/
def splitWSAux : List Char → List Char → List String
  | [], cur => if cur.isEmpty then [] else [String.mk cur.reverse]
  | c :: cs, cur =>
    if c.isWhitespace then
      (if cur.isEmpty then [] else [String.mk cur.reverse]) ++ splitWSAux cs []
    else splitWSAux cs (c :: cur)

/-- Function split_by_whitespace of data_batcher.py: `sentence.strip().split()`
splits on maximal whitespace runs ignoring leading/trailing whitespace;
the subsequent `re.split(" ", fragment)` is the identity on fragments
without spaces, and empty words are filtered out. -/
def split_by_whitespace (sentence : String) : List String :=
  splitWSAux sentence.toList []

/-- The numeric value of one decimal digit, none on a non-digit
(as in Python `int`). -/
def digitVal (c : Char) : Option Nat :=
  if c.isDigit then some (c.toNat - 48) else none

/-- Decimal digits to a natural number, none on any non-digit. -/
def digitsValAux : Nat → List Char → Option Nat
  | acc, [] => some acc
  | acc, c :: cs =>
    match digitVal c with
    | none => none
    | some d => digitsValAux (acc * 10 + d) cs

/-- Python `int(s)` on a whitespace-free token: optional sign followed by
at least one decimal digit; none models the ValueError. -/
def parsePyInt (s : String) : Option Int :=
  match s.toList with
  | [] => none
  | c :: cs =>
    if c = '-' then
      match cs with
      | [] => none
      | _ => (digitsValAux 0 cs).map (fun n => -(n : Int))
    else if c = '+' then
      match cs with
      | [] => none
      | _ => (digitsValAux 0 cs).map (fun n => (n : Int))
    else (digitsValAux 0 (c :: cs)).map (fun n => (n : Int))

/-- Function intstr_to_intlist of data_batcher.py: `[int(s) for s in
string.split()]`; none models the ValueError of a malformed integer. -/
def intstr_to_intlist (string : String) : Option (List Int) :=
  (split_by_whitespace string).mapM parsePyInt

/-- Function sentence_to_token_ids of data_batcher.py: tokens plus their ids,
any token missing from word2id maps to UNK_ID. -/
def sentence_to_token_ids (sentence : String) (word2id : String → Option Nat) :
    List String × List Nat :=
  (split_by_whitespace sentence,
   (split_by_whitespace sentence).map (fun w => (word2id w).getD UNK_ID))

/-- The fixed char2id table of refill_batches (lines 167-172).
Char.ofNat 34 is the double quote, Char.ofNat 39 the single quote. -/
def charTable : List (Char × Nat) :=
  [(Char.ofNat 97, 2), (Char.ofNat 98, 3), (Char.ofNat 99, 4), (Char.ofNat 100, 5),
   (Char.ofNat 101, 6), (Char.ofNat 102, 7), (Char.ofNat 103, 8), (Char.ofNat 104, 9),
   (Char.ofNat 105, 10), (Char.ofNat 106, 11), (Char.ofNat 107, 12), (Char.ofNat 108, 13),
   (Char.ofNat 109, 14), (Char.ofNat 110, 15), (Char.ofNat 111, 16), (Char.ofNat 112, 17),
   (Char.ofNat 113, 18), (Char.ofNat 114, 19), (Char.ofNat 115, 20), (Char.ofNat 116, 21),
   (Char.ofNat 117, 22), (Char.ofNat 118, 23), (Char.ofNat 119, 24), (Char.ofNat 120, 25),
   (Char.ofNat 121, 26), (Char.ofNat 122, 27), (Char.ofNat 48, 28), (Char.ofNat 49, 29),
   (Char.ofNat 50, 30), (Char.ofNat 51, 31), (Char.ofNat 52, 32), (Char.ofNat 53, 33),
   (Char.ofNat 54, 34), (Char.ofNat 55, 35), (Char.ofNat 56, 36), (Char.ofNat 57, 37),
   (Char.ofNat 46, 38), (Char.ofNat 44, 39), (Char.ofNat 34, 40), (Char.ofNat 63, 41),
   (Char.ofNat 39, 42)]

/-- Lookup in the fixed character table. -/
def char2id (c : Char) : Option Nat := charTable.lookup c

/-- Character ids of one token (refill_batches lines 185/189): lower-case
the token (ASCII lowering, as for the ASCII table above), map each
character through the table, UNK_ID on a miss. -/
def charIdsOfToken (tok : String) : List Nat :=
  tok.toList.map (fun c => (char2id c.toLower).getD UNK_ID)

/-- Function padded of data_batcher.py: right-pad every inner list with PAD_ID to
`batch_pad` (or to the maximum length when batch_pad = 0; this program
never passes 0). A list already longer than the target is left unchanged,
as in Python. -/
def padded (token_batch : List (List Nat)) (batch_pad : Nat) : List (List Nat) :=
  let maxlen := if batch_pad = 0 then (token_batch.map List.length).foldl max 0 else batch_pad
  token_batch.map (fun token_list =>
    token_list ++ List.replicate (maxlen - token_list.length) PAD_ID)

/-- Function paddedBool of data_batcher.py: same with False as the filler. -/
def paddedBool (token_batch : List (List Bool)) (batch_pad : Nat) : List (List Bool) :=
  let maxlen := if batch_pad = 0 then (token_batch.map List.length).foldl max 0 else batch_pad
  token_batch.map (fun token_list =>
    token_list ++ List.replicate (maxlen - token_list.length) false)

/-- Function padded2 of data_batcher.py with islist=True: append rows of
`num_feats` PAD_IDs up to `batch_pad` rows. -/
def padded2Rows (token_batch : List (List (List Nat))) (num_feats : Nat)
    (batch_pad : Nat) : List (List (List Nat)) :=
  let maxlen := if batch_pad = 0 then (token_batch.map List.length).foldl max 0 else batch_pad
  token_batch.map (fun token_list =>
    token_list ++ List.replicate (maxlen - token_list.length) (List.replicate num_feats PAD_ID))

/-- Function padded2 of data_batcher.py with islist=False as used for feats,
where num_feats = 2 and the filler tuple num_feats*(PAD_ID,) is the pair
(PAD_ID, PAD_ID). -/
def padded2Feats (token_batch : List (List (ℚ × Nat))) (batch_pad : Nat) :
    List (List (ℚ × Nat)) :=
  let maxlen := if batch_pad = 0 then (token_batch.map List.length).foldl max 0 else batch_pad
  token_batch.map (fun token_list =>
    token_list ++ List.replicate (maxlen - token_list.length) ((PAD_ID : ℚ), PAD_ID))

/-- The per-token rows of character ids of refill_batches lines 185-187
(and 189-191): per-token table lookup, cap at word_len, then immediate
right-padding of every row to word_len with PAD_ID. -/
def charRows (tokens : List String) (word_len : Nat) : List (List Nat) :=
  padded ((tokens.map charIdsOfToken).map (fun x => x.take word_len)) word_len

/-- Exact-match feature (refill_batches line 217): for each context token
the indicator of `the number of question tokens equal to it is exactly 1`,
written as in the source as a sum of per-question-token indicators. -/
def match_orig (context_tokens qn_tokens : List String) : List Nat :=
  context_tokens.map (fun context_token =>
    if (qn_tokens.map (fun q => if context_token = q then 1 else 0)).sum = 1 then 1 else 0)

/-- The frequency distribution over context tokens (FreqDist): the number
of occurrences of w. -/
def fdist (context_tokens : List String) (w : String) : Nat :=
  context_tokens.count w

/-- Value of `max(fdist.values())`: the maximal occurrence count. The Python max
raises on an empty context; the caller guards that case (see assemble). -/
def max_count (context_tokens : List String) : Nat :=
  (context_tokens.map (fdist context_tokens)).foldl max 0

/-- Normalized term frequency (refill_batches lines 221-223) with the
fixed smoothing constant a = 0.4. -/
def tf (context_tokens : List String) : List ℚ :=
  context_tokens.map (fun w =>
    0.4 + (1 - 0.4) * (fdist context_tokens w : ℚ) / (max_count context_tokens : ℚ))

/-- Combined `feats = zip(*(tf, match_orig))` (refill_batches line 228). -/
def featsOf (context_tokens qn_tokens : List String) : List (ℚ × Nat) :=
  (tf context_tokens).zip (match_orig context_tokens qn_tokens)

/-- commonQ_mask / commonC_mask (refill_batches lines 195/198):
`x in mcids_dict` per word id. -/
def commonMask (mcids_dict : Nat → Option Nat) (ids : List Nat) : List Bool :=
  ids.map (fun x => (mcids_dict x).isSome)

/-- commonQ_emb_indices / commonC_emb_indices (lines 196/199):
`mcids_dict.get(x, 0)` per word id. -/
def commonEmbIndices (mcids_dict : Nat → Option Nat) (ids : List Nat) : List Nat :=
  ids.map (fun x => (mcids_dict x).getD 0)

/-- One bound of a Python slice, normalized against the list length
(negative indices count from the end, then both are clamped to [0, n]). -/
def pyBound (n : Nat) (i : Int) : Nat :=
  if i < 0 then (i + n).toNat else min i.toNat n

/-- Python `xs[i:j]` with step 1. -/
def pySlice {α : Type} (xs : List α) (i j : Int) : List α :=
  (xs.take (pyBound xs.length j)).drop (pyBound xs.length i)

/-- The configuration parameters threaded through refill_batches /
get_batch_generator. -/
structure Config where
  batch_size : Nat
  context_len : Nat
  question_len : Nat
  discard_long : Bool
  word_len : Nat
  deriving Inhabited

/-- One assembled example: the 13-tuple appended to `examples` at
refill_batches line 263, with named fields. -/
structure RawExample where
  context_ids : List Nat
  context_tokens : List String
  qn_ids : List Nat
  qn_tokens : List String
  ans_span : List Int
  ans_tokens : List String
  feats : List (ℚ × Nat)
  char_ids : List (List Nat)
  commonQ_mask : List Bool
  commonQ_emb_indices : List Nat
  charQ_ids : List (List Nat)
  commonC_mask : List Bool
  commonC_emb_indices : List Nat
  deriving Inhabited

/-- Outcome of processing one line triple in the body of the reading loop
of refill_batches: a fatal exception, a `continue`, or an appended
example. -/
inductive AssembleResult
  | fatal
  | skipped
  | ok (e : RawExample)
  deriving Inhabited

/-- The question-side length policy (refill_batches lines 242-249):
discard (none) or truncate the four question-aligned fields. -/
def qnPolicy (cfg : Config) (qn_ids : List Nat) (commonQ_mask : List Bool)
    (commonQ_emb_indices : List Nat) (charQ_ids : List (List Nat)) :
    Option (List Nat × List Bool × List Nat × List (List Nat)) :=
  if qn_ids.length > cfg.question_len then
    if cfg.discard_long then none
    else some (qn_ids.take cfg.question_len, commonQ_mask.take cfg.question_len,
               commonQ_emb_indices.take cfg.question_len, charQ_ids.take cfg.question_len)
  else some (qn_ids, commonQ_mask, commonQ_emb_indices, charQ_ids)

/-- The context-side length policy (refill_batches lines 252-260):
discard (none) or truncate the five context-aligned fields. -/
def ctxPolicy (cfg : Config) (context_ids : List Nat) (feats : List (ℚ × Nat))
    (char_ids : List (List Nat)) (commonC_mask : List Bool)
    (commonC_emb_indices : List Nat) :
    Option (List Nat × List (ℚ × Nat) × List (List Nat) × List Bool × List Nat) :=
  if context_ids.length > cfg.context_len then
    if cfg.discard_long then none
    else some (context_ids.take cfg.context_len, feats.take cfg.context_len,
               char_ids.take cfg.context_len, commonC_mask.take cfg.context_len,
               commonC_emb_indices.take cfg.context_len)
  else some (context_ids, feats, char_ids, commonC_mask, commonC_emb_indices)

/-- The body of the reading loop of refill_batches (lines 180-263) on one
line triple: tokenize, derive features, check the answer span, apply the
length policies.  fatal models the exceptions (unparseable answer line,
max() over the empty frequency distribution of an empty context, failed
`assert len(ans_span) == 2`); skipped models `continue`. -/
def assemble (word2id : String → Option Nat) (mcids_dict : Nat → Option Nat)
    (cfg : Config) (context_line qn_line ans_line : String) : AssembleResult :=
  let context_tokens := (sentence_to_token_ids context_line word2id).1
  let context_ids := (sentence_to_token_ids context_line word2id).2
  let qn_tokens := (sentence_to_token_ids qn_line word2id).1
  let qn_ids := (sentence_to_token_ids qn_line word2id).2
  match intstr_to_intlist ans_line with
  | none => .fatal
  | some ans_span =>
    if context_tokens.isEmpty then .fatal
    else
      let char_ids := charRows context_tokens cfg.word_len
      let charQ_ids := charRows qn_tokens cfg.word_len
      let commonQ_mask := commonMask mcids_dict qn_ids
      let commonQ_emb_indices := commonEmbIndices mcids_dict qn_ids
      let commonC_mask := commonMask mcids_dict context_ids
      let commonC_emb_indices := commonEmbIndices mcids_dict context_ids
      let feats := featsOf context_tokens qn_tokens
      match ans_span with
      | [st, en] =>
        if en < st then .skipped
        else
          let ans_tokens := pySlice context_tokens st (en + 1)
          match qnPolicy cfg qn_ids commonQ_mask commonQ_emb_indices charQ_ids with
          | none => .skipped
          | some (qn_ids, commonQ_mask, commonQ_emb_indices, charQ_ids) =>
            match ctxPolicy cfg context_ids feats char_ids commonC_mask commonC_emb_indices with
            | none => .skipped
            | some (context_ids, feats, char_ids, commonC_mask, commonC_emb_indices) =>
              .ok { context_ids := context_ids, context_tokens := context_tokens,
                    qn_ids := qn_ids, qn_tokens := qn_tokens,
                    ans_span := [st, en], ans_tokens := ans_tokens,
                    feats := feats, char_ids := char_ids,
                    commonQ_mask := commonQ_mask,
                    commonQ_emb_indices := commonQ_emb_indices,
                    charQ_ids := charQ_ids,
                    commonC_mask := commonC_mask,
                    commonC_emb_indices := commonC_emb_indices }
      | _ => .fatal

/-- One line triple (context line, question line, answer line). -/
abbrev Triple := String × String × String

/-- The reading loop of refill_batches (lines 177-267): process triples
until the streams run out or the pool reaches batch_size * 160 examples;
returns the pool and the unread remainder of the streams. none models a
fatal exception. -/
def refillLoop (word2id : String → Option Nat) (mcids_dict : Nat → Option Nat)
    (cfg : Config) : List Triple → List RawExample →
    Option (List RawExample × List Triple)
  | [], acc => some (acc, [])
  | t :: rest, acc =>
    match assemble word2id mcids_dict cfg t.1 t.2.1 t.2.2 with
    | .fatal => none
    | .skipped => refillLoop word2id mcids_dict cfg rest acc
    | .ok e =>
      if (acc ++ [e]).length = cfg.batch_size * 160 then some (acc ++ [e], rest)
      else refillLoop word2id mcids_dict cfg rest (acc ++ [e])

/-- Comparison used at refill_batches line 273:
`sorted(examples, key=lambda e: len(e[2]))`, e[2] being qn_ids. -/
def qnLenLe (a b : RawExample) : Prop := a.qn_ids.length ≤ b.qn_ids.length

instance : DecidableRel qnLenLe := fun a b => Nat.decLe a.qn_ids.length b.qn_ids.length

instance : IsTotal RawExample qnLenLe :=
  ⟨fun a b => Nat.le_total a.qn_ids.length b.qn_ids.length⟩

instance : IsTrans RawExample qnLenLe :=
  ⟨fun _ _ _ h1 h2 => Nat.le_trans h1 h2⟩

/-- Sorting `sorted(examples, key=lambda e: len(e[2]))` (line 273): a stable sort
ascending by question length, modelled by the stable insertionSort. -/
def sortByQnLen (examples : List RawExample) : List RawExample :=
  examples.insertionSort qnLenLe

/-- Fuel-driven chunking: while the list is nonempty, emit the next
`bs`-element slice.  The fuel argument only forces termination; it is
always called with fuel at least the list length. -/
def makeBatchesAux {α : Type} (bs : Nat) : Nat → List α → List (List α)
  | _, [] => []
  | 0, _ :: _ => []
  | fuel + 1, x :: xs => (x :: xs).take bs :: makeBatchesAux bs fuel ((x :: xs).drop bs)

/-- The slicing loop of refill_batches lines 276-281:
`for batch_start in xrange(0, len(examples), batch_size)` over the sorted
pool (Python raises on batch_size = 0; this is only used with a positive
batch size). -/
def makeBatches {α : Type} (bs : Nat) (xs : List α) : List (List α) :=
  makeBatchesAux bs xs.length xs

/-- Shuffling `random.shuffle(batches)` (line 284): an arbitrary permutation of the
list of batches, supplied as a parameter of the model. -/
def Shuffler : Type :=
  (l : List (List RawExample)) → {l2 : List (List RawExample) // l2.Perm l}

/-- The identity permutation, a legitimate outcome of random.shuffle. -/
def idShuffle : Shuffler := fun l => ⟨l, List.Perm.refl l⟩

/-- Reversal, another legitimate outcome of random.shuffle. -/
def revShuffle : Shuffler := fun l => ⟨l.reverse, l.reverse_perm⟩

/-- Lines 271-284 of refill_batches: sort the pool by question length,
slice into batch_size chunks, shuffle the chunk order. -/
def bucketBatches (cfg : Config) (shuffle : Shuffler)
    (examples : List RawExample) : List (List RawExample) :=
  (shuffle (makeBatches cfg.batch_size (sortByQnLen examples))).val

/-- The Batch record (data_batcher.py lines 34-76) after the padding in
get_batch_generator lines 317-352; arrays are lists of rows. -/
structure Batch where
  context_ids : List (List Nat)
  context_mask : List (List Nat)
  context_tokens : List (List String)
  qn_ids : List (List Nat)
  qn_mask : List (List Nat)
  qn_tokens : List (List String)
  ans_span : List (List Int)
  ans_tokens : List (List String)
  feats : List (List (ℚ × Nat))
  char_ids : List (List (List Nat))
  char_mask : List (List (List Nat))
  commonQ_mask : List (List Bool)
  commonQ_emb_indices : List (List Nat)
  charQ_ids : List (List (List Nat))
  charQ_mask : List (List (List Nat))
  commonC_mask : List (List Bool)
  commonC_emb_indices : List (List Nat)
  batch_size : Nat
  deriving Inhabited

/-- Mask `(ids != PAD_ID).astype(np.int32)` on one row. -/
def toMask (row : List Nat) : List Nat :=
  row.map (fun id => if id = PAD_ID then 0 else 1)

/-- Mask `(char_ids != PAD_ID).astype(np.int32)` on the rows of one example. -/
def toMask2 (rows : List (List Nat)) : List (List Nat) :=
  rows.map toMask

/-- get_batch_generator lines 317-352: pad every field of one popped
batch of examples to its fixed shape, build the masks, assemble the Batch
record (whose batch_size is len(context_tokens), line 62). -/
def materialize (cfg : Config) (chunk : List RawExample) : Batch :=
  let qn_ids := padded (chunk.map (fun e => e.qn_ids)) cfg.question_len
  let context_ids := padded (chunk.map (fun e => e.context_ids)) cfg.context_len
  let char_ids := padded2Rows (chunk.map (fun e => e.char_ids)) cfg.word_len cfg.context_len
  let charQ_ids := padded2Rows (chunk.map (fun e => e.charQ_ids)) cfg.word_len cfg.question_len
  { context_ids := context_ids
    context_mask := context_ids.map toMask
    context_tokens := chunk.map (fun e => e.context_tokens)
    qn_ids := qn_ids
    qn_mask := qn_ids.map toMask
    qn_tokens := chunk.map (fun e => e.qn_tokens)
    ans_span := chunk.map (fun e => e.ans_span)
    ans_tokens := chunk.map (fun e => e.ans_tokens)
    feats := padded2Feats (chunk.map (fun e => e.feats)) cfg.context_len
    char_ids := char_ids
    char_mask := char_ids.map toMask2
    commonQ_mask := paddedBool (chunk.map (fun e => e.commonQ_mask)) cfg.question_len
    commonQ_emb_indices := padded (chunk.map (fun e => e.commonQ_emb_indices)) cfg.question_len
    charQ_ids := charQ_ids
    charQ_mask := charQ_ids.map toMask2
    commonC_mask := paddedBool (chunk.map (fun e => e.commonC_mask)) cfg.context_len
    commonC_emb_indices := padded (chunk.map (fun e => e.commonC_emb_indices)) cfg.context_len
    batch_size := (chunk.map (fun e => e.context_tokens)).length }

/-- The generator loop of get_batch_generator (lines 308-356): refill when
the pending list is empty, stop when a refill produces nothing, otherwise
materialize and yield the pending batches in order.  The fuel argument
only forces termination; the stream shrinks at every productive refill,
so fuel = stream length + 1 always suffices. -/
def genLoop (word2id : String → Option Nat) (mcids_dict : Nat → Option Nat)
    (cfg : Config) (shuffle : Shuffler) : Nat → List Triple → Option (List Batch)
  | 0, _ => none
  | fuel + 1, stream =>
    match refillLoop word2id mcids_dict cfg stream [] with
    | none => none
    | some (exs, rest) =>
      let batches := bucketBatches cfg shuffle exs
      if batches.isEmpty then some []
      else
        match genLoop word2id mcids_dict cfg shuffle fuel rest with
        | none => none
        | some tail => some (batches.map (materialize cfg) ++ tail)

/-- Function get_batch_generator: the full stream of batches produced from the
three line-aligned files (modelled as the zip of their line lists). -/
def get_batch_generator (word2id : String → Option Nat) (mcids_dict : Nat → Option Nat)
    (cfg : Config) (shuffle : Shuffler)
    (context_lines qn_lines ans_lines : List String) : Option (List Batch) :=
  let stream := context_lines.zip (qn_lines.zip ans_lines)
  genLoop word2id mcids_dict cfg shuffle (stream.length + 1) stream

def w2idW : String → Option Nat := fun w =>
  if w = "a" then some 5 else if w = "b" then some 6 else none

def mcidsW : Nat → Option Nat := fun n => if n = 5 then some 3 else none

def cfgW : Config :=
  { batch_size := 2, context_len := 5, question_len := 5,
    discard_long := false, word_len := 4 }

def cfgTrunc : Config :=
  { batch_size := 2, context_len := 1, question_len := 1,
    discard_long := false, word_len := 4 }

def cfgDiscard : Config :=
  { batch_size := 2, context_len := 1, question_len := 1,
    discard_long := true, word_len := 4 }

def okExample : AssembleResult → Option RawExample
  | .ok e => some e
  | _ => none

def exTrunc : RawExample :=
  match assemble w2idW mcidsW cfgTrunc "a b" "a" "0 0" with
  | .ok e => e
  | _ => default

def exSpan : RawExample :=
  match assemble w2idW mcidsW cfgTrunc "a b b" "a" "2 2" with
  | .ok e => e
  | _ => default

def outW8 : List Batch :=
  match get_batch_generator w2idW mcidsW cfgW idShuffle ["a a b"] ["a c"] ["0 1"] with
  | some out => out
  | none => []

def b8 : Batch := outW8.headI

def p8 : List Nat × List String := (b8.qn_mask.zip b8.qn_tokens).headI

def outW2 : List Batch :=
  match get_batch_generator w2idW mcidsW cfgW idShuffle ["a a b", "b b", "a"]
      ["a", "b b", "a b"] ["0 0", "0 0", "0 0"] with
  | some out => out
  | none => []

theorem qnPolicy_some (cfg : Config) (qids : List Nat) (qm : List Bool)
    (qi : List Nat) (qc : List (List Nat))
    (out : List Nat × List Bool × List Nat × List (List Nat))
    (h : qnPolicy cfg qids qm qi qc = some out) :
    (qids.length ≤ cfg.question_len ∧ out = (qids, qm, qi, qc)) ∨
    (qids.length > cfg.question_len ∧ cfg.discard_long = false ∧
      out = (qids.take cfg.question_len, qm.take cfg.question_len,
             qi.take cfg.question_len, qc.take cfg.question_len)) := by
  unfold qnPolicy at h
  split at h
  next hgt =>
    split at h
    next => exact absurd h (by simp)
    next hd => exact Or.inr ⟨hgt, by simpa using hd, by simpa using h.symm⟩
  next hle => exact Or.inl ⟨by omega, by simpa using h.symm⟩

theorem ctxPolicy_some (cfg : Config) (cids : List Nat) (fts : List (ℚ × Nat))
    (chs : List (List Nat)) (cm : List Bool) (ci : List Nat)
    (out : List Nat × List (ℚ × Nat) × List (List Nat) × List Bool × List Nat)
    (h : ctxPolicy cfg cids fts chs cm ci = some out) :
    (cids.length ≤ cfg.context_len ∧ out = (cids, fts, chs, cm, ci)) ∨
    (cids.length > cfg.context_len ∧ cfg.discard_long = false ∧
      out = (cids.take cfg.context_len, fts.take cfg.context_len,
             chs.take cfg.context_len, cm.take cfg.context_len,
             ci.take cfg.context_len)) := by
  unfold ctxPolicy at h
  split at h
  next hgt =>
    split at h
    next => exact absurd h (by simp)
    next hd => exact Or.inr ⟨hgt, by simpa using hd, by simpa using h.symm⟩
  next hle => exact Or.inl ⟨by omega, by simpa using h.symm⟩

theorem assemble_ok (word2id : String → Option Nat) (mcids_dict : Nat → Option Nat)
    (cfg : Config) (c q s : String) (e : RawExample)
    (h : assemble word2id mcids_dict cfg c q s = .ok e) :
    ∃ st en : Int,
      intstr_to_intlist s = some [st, en] ∧ st ≤ en ∧
      (sentence_to_token_ids c word2id).1 ≠ [] ∧
      e.context_tokens = (sentence_to_token_ids c word2id).1 ∧
      e.qn_tokens = (sentence_to_token_ids q word2id).1 ∧
      e.ans_span = [st, en] ∧
      e.ans_tokens = pySlice (sentence_to_token_ids c word2id).1 st (en + 1) ∧
      qnPolicy cfg (sentence_to_token_ids q word2id).2
        (commonMask mcids_dict (sentence_to_token_ids q word2id).2)
        (commonEmbIndices mcids_dict (sentence_to_token_ids q word2id).2)
        (charRows (sentence_to_token_ids q word2id).1 cfg.word_len)
        = some (e.qn_ids, e.commonQ_mask, e.commonQ_emb_indices, e.charQ_ids) ∧
      ctxPolicy cfg (sentence_to_token_ids c word2id).2
        (featsOf (sentence_to_token_ids c word2id).1 (sentence_to_token_ids q word2id).1)
        (charRows (sentence_to_token_ids c word2id).1 cfg.word_len)
        (commonMask mcids_dict (sentence_to_token_ids c word2id).2)
        (commonEmbIndices mcids_dict (sentence_to_token_ids c word2id).2)
        = some (e.context_ids, e.feats, e.char_ids, e.commonC_mask, e.commonC_emb_indices) := by
  unfold assemble at h
  rcases heq : intstr_to_intlist s with _ | ans_span
  · simp [heq] at h
  by_cases hCE : (sentence_to_token_ids c word2id).1.isEmpty
  · simp [heq, hCE] at h
  rcases ans_span with _ | ⟨st, _ | ⟨en, _ | ⟨a3, rest⟩⟩⟩
  · simp [heq, hCE] at h
  · simp [heq, hCE] at h
  · by_cases hlt : en < st
    · simp [heq, hCE, hlt] at h
    · rcases hq : qnPolicy cfg (sentence_to_token_ids q word2id).2
          (commonMask mcids_dict (sentence_to_token_ids q word2id).2)
          (commonEmbIndices mcids_dict (sentence_to_token_ids q word2id).2)
          (charRows (sentence_to_token_ids q word2id).1 cfg.word_len)
          with _ | ⟨q1, q2, q3, q4⟩
      · simp [heq, hCE, hlt, hq] at h
      · rcases hc : ctxPolicy cfg (sentence_to_token_ids c word2id).2
            (featsOf (sentence_to_token_ids c word2id).1 (sentence_to_token_ids q word2id).1)
            (charRows (sentence_to_token_ids c word2id).1 cfg.word_len)
            (commonMask mcids_dict (sentence_to_token_ids c word2id).2)
            (commonEmbIndices mcids_dict (sentence_to_token_ids c word2id).2)
            with _ | ⟨c1, c2, c3, c4, c5⟩
        · simp [heq, hCE, hlt, hq, hc] at h
        · simp [heq, hCE, hlt, hq, hc] at h
          subst h
          exact ⟨st, en, rfl, by omega, by simpa [List.isEmpty_iff] using hCE,
            rfl, rfl, rfl, rfl, rfl, rfl⟩
  · simp [heq, hCE] at h

theorem length_token_ids (s : String) (w : String → Option Nat) :
    (sentence_to_token_ids s w).2.length = (sentence_to_token_ids s w).1.length := by
  simp [sentence_to_token_ids]

theorem length_charRows (toks : List String) (wlen : Nat) :
    (charRows toks wlen).length = toks.length := by
  simp [charRows, padded]

theorem length_match_orig (cts qts : List String) :
    (match_orig cts qts).length = cts.length := by
  simp [match_orig]

theorem length_tf (cts : List String) : (tf cts).length = cts.length := by
  simp [tf]

theorem length_featsOf (cts qts : List String) :
    (featsOf cts qts).length = cts.length := by
  simp [featsOf, length_tf, length_match_orig]

theorem length_commonMask (m : Nat → Option Nat) (ids : List Nat) :
    (commonMask m ids).length = ids.length := by simp [commonMask]

theorem length_commonEmbIndices (m : Nat → Option Nat) (ids : List Nat) :
    (commonEmbIndices m ids).length = ids.length := by simp [commonEmbIndices]

theorem aligned_lengths_core (word2id : String → Option Nat) (mcids_dict : Nat → Option Nat)
    (cfg : Config) (c q s : String) (e : RawExample)
    (h : assemble word2id mcids_dict cfg c q s = .ok e) :
    (e.context_ids.length = min e.context_tokens.length cfg.context_len ∧
     e.feats.length = min e.context_tokens.length cfg.context_len ∧
     e.char_ids.length = min e.context_tokens.length cfg.context_len ∧
     e.commonC_mask.length = min e.context_tokens.length cfg.context_len ∧
     e.commonC_emb_indices.length = min e.context_tokens.length cfg.context_len) ∧
    (e.qn_ids.length = min e.qn_tokens.length cfg.question_len ∧
     e.commonQ_mask.length = min e.qn_tokens.length cfg.question_len ∧
     e.commonQ_emb_indices.length = min e.qn_tokens.length cfg.question_len ∧
     e.charQ_ids.length = min e.qn_tokens.length cfg.question_len) := by
  obtain ⟨st, en, _, _, _, hct, hqt, _, _, hq, hc⟩ :=
    assemble_ok word2id mcids_dict cfg c q s e h
  have hcl := length_token_ids c word2id
  have hql := length_token_ids q word2id
  constructor
  · rcases ctxPolicy_some cfg _ _ _ _ _ _ hc with ⟨hle, hout⟩ | ⟨hgt, _, hout⟩ <;>
      simp only [Prod.mk.injEq] at hout <;>
      obtain ⟨h1, h2, h3, h4, h5⟩ := hout <;>
      rw [h1, h2, h3, h4, h5, hct] <;>
      simp only [List.length_take, length_featsOf, length_charRows, length_commonMask,
        length_commonEmbIndices] <;>
      omega
  · rcases qnPolicy_some cfg _ _ _ _ _ hq with ⟨hle, hout⟩ | ⟨hgt, _, hout⟩ <;>
      simp only [Prod.mk.injEq] at hout <;>
      obtain ⟨h1, h2, h3, h4⟩ := hout <;>
      rw [h1, h2, h3, h4, hqt] <;>
      simp only [List.length_take, length_charRows, length_commonMask,
        length_commonEmbIndices] <;>
      omega

/-- C1 (corrected, amended): for every example assembled by the pipeline
(pre-padding), the five context-aligned fields context_ids, feats,
char_ids, commonC_mask and commonC_emb_indices all share the unpadded
length min(len(context_tokens), context_len), and the four
question-aligned fields qn_ids, commonQ_mask, commonQ_emb_indices and
charQ_ids all share min(len(qn_tokens), question_len).  The token lists
themselves are never truncated, so under discard_long = false the claimed
equality with len(context_tokens) fails for truncated examples (see
c1_counterexample). -/
theorem c1_aligned_field_lengths (word2id : String → Option Nat)
    (mcids_dict : Nat → Option Nat) (cfg : Config) (c q s : String) (e : RawExample)
    (h : assemble word2id mcids_dict cfg c q s = .ok e) :
    (e.context_ids.length = min e.context_tokens.length cfg.context_len ∧
     e.feats.length = min e.context_tokens.length cfg.context_len ∧
     e.char_ids.length = min e.context_tokens.length cfg.context_len ∧
     e.commonC_mask.length = min e.context_tokens.length cfg.context_len ∧
     e.commonC_emb_indices.length = min e.context_tokens.length cfg.context_len) ∧
    (e.qn_ids.length = min e.qn_tokens.length cfg.question_len ∧
     e.commonQ_mask.length = min e.qn_tokens.length cfg.question_len ∧
     e.commonQ_emb_indices.length = min e.qn_tokens.length cfg.question_len ∧
     e.charQ_ids.length = min e.qn_tokens.length cfg.question_len) :=
  aligned_lengths_core word2id mcids_dict cfg c q s e h

theorem refillLoop_skip (word2id : String → Option Nat) (mcids_dict : Nat → Option Nat)
    (cfg : Config) (t : Triple) (rest : List Triple) (acc : List RawExample)
    (h : assemble word2id mcids_dict cfg t.1 t.2.1 t.2.2 = .skipped) :
    refillLoop word2id mcids_dict cfg (t :: rest) acc =
      refillLoop word2id mcids_dict cfg rest acc := by
  simp only [refillLoop, h]

theorem genLoop_skip (word2id : String → Option Nat) (mcids_dict : Nat → Option Nat)
    (cfg : Config) (shuffle : Shuffler) (fuel : Nat) (t : Triple) (rest : List Triple)
    (h : assemble word2id mcids_dict cfg t.1 t.2.1 t.2.2 = .skipped) :
    genLoop word2id mcids_dict cfg shuffle (fuel + 1) (t :: rest) =
      genLoop word2id mcids_dict cfg shuffle (fuel + 1) rest := by
  simp only [genLoop]
  rw [refillLoop_skip word2id mcids_dict cfg t rest [] h]

theorem assemble_eval_ok (word2id : String → Option Nat) (mcids_dict : Nat → Option Nat)
    (cfg : Config) (c q s : String) (st en : Int)
    (a1 : List Nat) (a2 : List Bool) (a3 : List Nat) (a4 : List (List Nat))
    (d1 : List Nat) (d2 : List (ℚ × Nat)) (d3 : List (List Nat)) (d4 : List Bool)
    (d5 : List Nat)
    (hs : intstr_to_intlist s = some [st, en])
    (hCE : (sentence_to_token_ids c word2id).1.isEmpty = false)
    (hnlt : ¬ en < st)
    (hq1 : qnPolicy cfg (sentence_to_token_ids q word2id).2
      (commonMask mcids_dict (sentence_to_token_ids q word2id).2)
      (commonEmbIndices mcids_dict (sentence_to_token_ids q word2id).2)
      (charRows (sentence_to_token_ids q word2id).1 cfg.word_len) = some (a1, a2, a3, a4))
    (hc1 : ctxPolicy cfg (sentence_to_token_ids c word2id).2
      (featsOf (sentence_to_token_ids c word2id).1 (sentence_to_token_ids q word2id).1)
      (charRows (sentence_to_token_ids c word2id).1 cfg.word_len)
      (commonMask mcids_dict (sentence_to_token_ids c word2id).2)
      (commonEmbIndices mcids_dict (sentence_to_token_ids c word2id).2)
      = some (d1, d2, d3, d4, d5)) :
    assemble word2id mcids_dict cfg c q s = .ok
      { context_ids := d1, context_tokens := (sentence_to_token_ids c word2id).1,
        qn_ids := a1, qn_tokens := (sentence_to_token_ids q word2id).1,
        ans_span := [st, en],
        ans_tokens := pySlice (sentence_to_token_ids c word2id).1 st (en + 1),
        feats := d2, char_ids := d3, commonQ_mask := a2, commonQ_emb_indices := a3,
        charQ_ids := a4, commonC_mask := d4, commonC_emb_indices := d5 } := by
  unfold assemble
  simp [hs, hCE, hnlt, hq1, hc1]

/-- C3 (confirmed): for every consumed triple that reaches the length
policy (well-formed span, nonempty context), if discard_long is true and
the question or context is over-length the triple is skipped and
contributes nothing to the example pool; if discard_long is false an
example is produced in which each over-length side has its id sequence,
shared-vocabulary mask and index fields, per-token char-id rows and (for
the context) feats truncated to exactly the first question_len /
context_len entries. -/
theorem c3_discard_truncate_policy (word2id : String → Option Nat)
    (mcids_dict : Nat → Option Nat) (cfg : Config) (c q s : String) (st en : Int)
    (hs : intstr_to_intlist s = some [st, en]) (hse : st ≤ en)
    (hc : (sentence_to_token_ids c word2id).1 ≠ []) :
    (cfg.discard_long = true →
      ((sentence_to_token_ids q word2id).2.length > cfg.question_len ∨
       (sentence_to_token_ids c word2id).2.length > cfg.context_len) →
      assemble word2id mcids_dict cfg c q s = .skipped ∧
      ∀ rest acc, refillLoop word2id mcids_dict cfg ((c, q, s) :: rest) acc =
        refillLoop word2id mcids_dict cfg rest acc) ∧
    (cfg.discard_long = false →
      ∃ e, assemble word2id mcids_dict cfg c q s = .ok e ∧
        ((sentence_to_token_ids q word2id).2.length > cfg.question_len →
          e.qn_ids = (sentence_to_token_ids q word2id).2.take cfg.question_len ∧
          e.commonQ_mask =
            (commonMask mcids_dict (sentence_to_token_ids q word2id).2).take cfg.question_len ∧
          e.commonQ_emb_indices =
            (commonEmbIndices mcids_dict (sentence_to_token_ids q word2id).2).take cfg.question_len ∧
          e.charQ_ids =
            (charRows (sentence_to_token_ids q word2id).1 cfg.word_len).take cfg.question_len) ∧
        ((sentence_to_token_ids c word2id).2.length > cfg.context_len →
          e.context_ids = (sentence_to_token_ids c word2id).2.take cfg.context_len ∧
          e.feats =
            (featsOf (sentence_to_token_ids c word2id).1
              (sentence_to_token_ids q word2id).1).take cfg.context_len ∧
          e.char_ids =
            (charRows (sentence_to_token_ids c word2id).1 cfg.word_len).take cfg.context_len ∧
          e.commonC_mask =
            (commonMask mcids_dict (sentence_to_token_ids c word2id).2).take cfg.context_len ∧
          e.commonC_emb_indices =
            (commonEmbIndices mcids_dict (sentence_to_token_ids c word2id).2).take cfg.context_len)) := by
  have hCE : (sentence_to_token_ids c word2id).1.isEmpty = false := by
    simpa [List.isEmpty_iff] using hc
  have hnlt : ¬ en < st := by omega
  constructor
  · intro hd hover
    have hskip : assemble word2id mcids_dict cfg c q s = .skipped := by
      by_cases hqo : (sentence_to_token_ids q word2id).2.length > cfg.question_len
      · have hq0 : qnPolicy cfg (sentence_to_token_ids q word2id).2
            (commonMask mcids_dict (sentence_to_token_ids q word2id).2)
            (commonEmbIndices mcids_dict (sentence_to_token_ids q word2id).2)
            (charRows (sentence_to_token_ids q word2id).1 cfg.word_len) = none := by
          unfold qnPolicy
          simp [hqo, hd]
        unfold assemble
        simp [hs, hCE, hnlt, hq0]
      · have hco : (sentence_to_token_ids c word2id).2.length > cfg.context_len := by tauto
        have hq1 : qnPolicy cfg (sentence_to_token_ids q word2id).2
            (commonMask mcids_dict (sentence_to_token_ids q word2id).2)
            (commonEmbIndices mcids_dict (sentence_to_token_ids q word2id).2)
            (charRows (sentence_to_token_ids q word2id).1 cfg.word_len)
            = some ((sentence_to_token_ids q word2id).2,
                commonMask mcids_dict (sentence_to_token_ids q word2id).2,
                commonEmbIndices mcids_dict (sentence_to_token_ids q word2id).2,
                charRows (sentence_to_token_ids q word2id).1 cfg.word_len) := by
          unfold qnPolicy
          simp [hqo]
        have hc0 : ctxPolicy cfg (sentence_to_token_ids c word2id).2
            (featsOf (sentence_to_token_ids c word2id).1 (sentence_to_token_ids q word2id).1)
            (charRows (sentence_to_token_ids c word2id).1 cfg.word_len)
            (commonMask mcids_dict (sentence_to_token_ids c word2id).2)
            (commonEmbIndices mcids_dict (sentence_to_token_ids c word2id).2) = none := by
          unfold ctxPolicy
          simp [hco, hd]
        unfold assemble
        simp [hs, hCE, hnlt, hq1, hc0]
    exact ⟨hskip, fun rest acc =>
      refillLoop_skip word2id mcids_dict cfg (c, q, s) rest acc hskip⟩
  · intro hd
    by_cases hqo : (sentence_to_token_ids q word2id).2.length > cfg.question_len <;>
      by_cases hco : (sentence_to_token_ids c word2id).2.length > cfg.context_len
    · refine ⟨_, assemble_eval_ok word2id mcids_dict cfg c q s st en
        ((sentence_to_token_ids q word2id).2.take cfg.question_len)
        ((commonMask mcids_dict (sentence_to_token_ids q word2id).2).take cfg.question_len)
        ((commonEmbIndices mcids_dict (sentence_to_token_ids q word2id).2).take cfg.question_len)
        ((charRows (sentence_to_token_ids q word2id).1 cfg.word_len).take cfg.question_len)
        ((sentence_to_token_ids c word2id).2.take cfg.context_len)
        ((featsOf (sentence_to_token_ids c word2id).1
          (sentence_to_token_ids q word2id).1).take cfg.context_len)
        ((charRows (sentence_to_token_ids c word2id).1 cfg.word_len).take cfg.context_len)
        ((commonMask mcids_dict (sentence_to_token_ids c word2id).2).take cfg.context_len)
        ((commonEmbIndices mcids_dict (sentence_to_token_ids c word2id).2).take cfg.context_len)
        hs hCE hnlt (by unfold qnPolicy; simp [hqo, hd])
        (by unfold ctxPolicy; simp [hco, hd]), ?_, ?_⟩ <;> intro hov
      · exact ⟨rfl, rfl, rfl, rfl⟩
      · exact ⟨rfl, rfl, rfl, rfl, rfl⟩
    · refine ⟨_, assemble_eval_ok word2id mcids_dict cfg c q s st en
        ((sentence_to_token_ids q word2id).2.take cfg.question_len)
        ((commonMask mcids_dict (sentence_to_token_ids q word2id).2).take cfg.question_len)
        ((commonEmbIndices mcids_dict (sentence_to_token_ids q word2id).2).take cfg.question_len)
        ((charRows (sentence_to_token_ids q word2id).1 cfg.word_len).take cfg.question_len)
        ((sentence_to_token_ids c word2id).2)
        (featsOf (sentence_to_token_ids c word2id).1 (sentence_to_token_ids q word2id).1)
        (charRows (sentence_to_token_ids c word2id).1 cfg.word_len)
        (commonMask mcids_dict (sentence_to_token_ids c word2id).2)
        (commonEmbIndices mcids_dict (sentence_to_token_ids c word2id).2)
        hs hCE hnlt (by unfold qnPolicy; simp [hqo, hd])
        (by unfold ctxPolicy; simp [hco]), ?_, ?_⟩ <;> intro hov
      · exact ⟨rfl, rfl, rfl, rfl⟩
      · exact absurd hov hco
    · refine ⟨_, assemble_eval_ok word2id mcids_dict cfg c q s st en
        ((sentence_to_token_ids q word2id).2)
        (commonMask mcids_dict (sentence_to_token_ids q word2id).2)
        (commonEmbIndices mcids_dict (sentence_to_token_ids q word2id).2)
        (charRows (sentence_to_token_ids q word2id).1 cfg.word_len)
        ((sentence_to_token_ids c word2id).2.take cfg.context_len)
        ((featsOf (sentence_to_token_ids c word2id).1
          (sentence_to_token_ids q word2id).1).take cfg.context_len)
        ((charRows (sentence_to_token_ids c word2id).1 cfg.word_len).take cfg.context_len)
        ((commonMask mcids_dict (sentence_to_token_ids c word2id).2).take cfg.context_len)
        ((commonEmbIndices mcids_dict (sentence_to_token_ids c word2id).2).take cfg.context_len)
        hs hCE hnlt (by unfold qnPolicy; simp [hqo])
        (by unfold ctxPolicy; simp [hco, hd]), ?_, ?_⟩ <;> intro hov
      · exact absurd hov hqo
      · exact ⟨rfl, rfl, rfl, rfl, rfl⟩
    · refine ⟨_, assemble_eval_ok word2id mcids_dict cfg c q s st en
        ((sentence_to_token_ids q word2id).2)
        (commonMask mcids_dict (sentence_to_token_ids q word2id).2)
        (commonEmbIndices mcids_dict (sentence_to_token_ids q word2id).2)
        (charRows (sentence_to_token_ids q word2id).1 cfg.word_len)
        ((sentence_to_token_ids c word2id).2)
        (featsOf (sentence_to_token_ids c word2id).1 (sentence_to_token_ids q word2id).1)
        (charRows (sentence_to_token_ids c word2id).1 cfg.word_len)
        (commonMask mcids_dict (sentence_to_token_ids c word2id).2)
        (commonEmbIndices mcids_dict (sentence_to_token_ids c word2id).2)
        hs hCE hnlt (by unfold qnPolicy; simp [hqo])
        (by unfold ctxPolicy; simp [hco]), ?_, ?_⟩ <;> intro hov
      · exact absurd hov hqo
      · exact absurd hov hco

/-- C6 (corrected, amended): a consumed triple whose answer line parses
as (start, end) with end < start and whose context line holds at least one
token yields no example, is non-fatal, and processing continues with the
remaining triples unchanged, both at the refill level and at the generator
level.  An empty context line instead crashes the run before the span
check (see c6_counterexample). -/
theorem c6_malformed_span_skipped (word2id : String → Option Nat)
    (mcids_dict : Nat → Option Nat) (cfg : Config) (shuffle : Shuffler)
    (c q s : String) (st en : Int)
    (hs : intstr_to_intlist s = some [st, en]) (hlt : en < st)
    (hc : (sentence_to_token_ids c word2id).1 ≠ []) :
    assemble word2id mcids_dict cfg c q s = .skipped ∧
    (∀ rest acc, refillLoop word2id mcids_dict cfg ((c, q, s) :: rest) acc =
      refillLoop word2id mcids_dict cfg rest acc) ∧
    (∀ fuel rest, genLoop word2id mcids_dict cfg shuffle (fuel + 1) ((c, q, s) :: rest) =
      genLoop word2id mcids_dict cfg shuffle (fuel + 1) rest) := by
  have hCE : (sentence_to_token_ids c word2id).1.isEmpty = false := by
    simpa [List.isEmpty_iff] using hc
  have hskip : assemble word2id mcids_dict cfg c q s = .skipped := by
    unfold assemble
    simp [hs, hCE, hlt]
  exact ⟨hskip,
    fun rest acc => refillLoop_skip word2id mcids_dict cfg (c, q, s) rest acc hskip,
    fun fuel rest => genLoop_skip word2id mcids_dict cfg shuffle fuel (c, q, s) rest hskip⟩

/-- C10 (confirmed): for every assembled example the stored ans_span is
exactly the parsed (start, end) pair and ans_tokens is the Python slice
context_tokens[start : end + 1] of the untruncated token list; context
truncation touches neither field, and the materializer copies ans_span
into the batch unchanged, so spans may index at or beyond context_len. -/
theorem c10_span_untruncated (word2id : String → Option Nat) (mcids_dict : Nat → Option Nat)
    (cfg : Config) (c q s : String) (st en : Int) (e : RawExample)
    (hs : intstr_to_intlist s = some [st, en])
    (h : assemble word2id mcids_dict cfg c q s = .ok e) :
    e.ans_span = [st, en] ∧
    e.context_tokens = (sentence_to_token_ids c word2id).1 ∧
    e.ans_tokens = pySlice (sentence_to_token_ids c word2id).1 st (en + 1) ∧
    ∀ chunk : List RawExample,
      (materialize cfg chunk).ans_span = chunk.map (fun x => x.ans_span) := by
  obtain ⟨st2, en2, hs2, _, _, hct, _, hsp, hat, _, _⟩ :=
    assemble_ok word2id mcids_dict cfg c q s e h
  rw [hs] at hs2
  obtain ⟨h1, h2⟩ : st2 = st ∧ en2 = en := by
    have := Option.some.inj hs2
    simp_all
  subst h1
  subst h2
  exact ⟨hsp, hct, hat, fun chunk => rfl⟩

/-- C1 counterexample: with context_len = 1 and discard_long = false, the
two-token context line produces an example whose context_ids has length 1
while context_tokens keeps length 2, refuting the claimed equality. -/
theorem c1_counterexample :
    (okExample (assemble w2idW mcidsW cfgTrunc "a b" "a" "0 0")).map
      (fun e => (e.context_tokens.length, e.context_ids.length)) = some (2, 1) := by
  decide

/-- C1 witness: the amended theorem applied to a concrete truncated
example. -/
theorem c1_witness :
    exTrunc.context_ids.length = min exTrunc.context_tokens.length cfgTrunc.context_len :=
  (c1_aligned_field_lengths w2idW mcidsW cfgTrunc "a b" "a" "0 0" exTrunc rfl).1.1

/-- C3 witness: with discard_long = true and an over-length question the
concrete triple is skipped. -/
theorem c3_witness :
    assemble w2idW mcidsW cfgDiscard "a b" "a b" "0 0" = AssembleResult.skipped :=
  ((c3_discard_truncate_policy w2idW mcidsW cfgDiscard "a b" "a b" "0 0" 0 0 rfl (by decide)
    (by decide)).1 rfl (Or.inl (by decide))).1

/-- C6 counterexample: a triple whose answer parses as start = 5,
end = 2 (end < start) but whose context line is empty is fatal, not
skipped: max() over the empty frequency distribution is raised before the
span check, so processing does not continue. -/
theorem c6_counterexample :
    intstr_to_intlist "5 2" = some [5, 2] ∧
    assemble w2idW mcidsW cfgW "" "a" "5 2" = AssembleResult.fatal ∧
    refillLoop w2idW mcidsW cfgW [("", "a", "5 2")] [] = none := by
  exact ⟨rfl, rfl, rfl⟩

/-- C6 witness: the amended theorem applied to a concrete malformed span
with a nonempty context. -/
theorem c6_witness :
    assemble w2idW mcidsW cfgW "a b" "a" "5 2" = AssembleResult.skipped :=
  (c6_malformed_span_skipped w2idW mcidsW cfgW idShuffle "a b" "a" "5 2" 5 2 rfl (by decide)
    (by decide)).1

/-- C10 witness: a concrete example whose span [2, 2] indexes at and
beyond the truncated context length 1. -/
theorem c10_witness : exSpan.ans_span = [2, 2] :=
  (c10_span_untruncated w2idW mcidsW cfgTrunc "a b b" "a" "2 2" 2 2 exSpan rfl rfl).1

theorem sum_indicator_eq_count (t : String) (qts : List String) :
    (qts.map (fun q => if t = q then 1 else 0)).sum = qts.count t := by
  induction qts with
  | nil => simp
  | cons q rest ih =>
    simp only [List.map_cons, List.sum_cons, List.count_cons, ih, beq_iff_eq]
    by_cases heq : t = q
    · subst heq
      simp only [if_pos rfl]
      omega
    · have hqn : ¬ (q = t) := fun h2 => heq h2.symm
      simp only [if_neg heq, if_neg hqn]
      omega

/-- C4 (confirmed): the exact-match feature of context token number i is
1 iff the token occurs in the question token sequence exactly once, and 0
whenever the count differs from 1 (zero occurrences or two or more). -/
theorem c4_exact_match_feature (cts qts : List String) (i : Nat) (h : i < cts.length)
    (h2 : i < (match_orig cts qts).length) :
    ((match_orig cts qts)[i] = 1 ↔ qts.count cts[i] = 1) ∧
    (qts.count cts[i] ≠ 1 → (match_orig cts qts)[i] = 0) := by
  have hg : (match_orig cts qts)[i] =
      if (qts.map (fun q => if cts[i] = q then 1 else 0)).sum = 1 then 1 else 0 := by
    simp [match_orig]
  rw [hg, sum_indicator_eq_count]
  constructor
  · constructor
    · intro h1
      by_contra hne
      simp [hne] at h1
    · intro h1
      simp [h1]
  · intro hne
    simp [hne]

theorem foldl_max_init_le (l : List Nat) (a : Nat) : a ≤ l.foldl max a := by
  induction l generalizing a with
  | nil => simp
  | cons y ys ih => exact le_trans (le_max_left a y) (ih (max a y))

theorem foldl_max_le (l : List Nat) : ∀ a x : Nat, x ∈ l → x ≤ l.foldl max a := by
  induction l with
  | nil => intro a x hx; cases hx
  | cons y ys ih =>
    intro a x hx
    rcases List.mem_cons.mp hx with rfl | hx2
    · exact le_trans (le_max_right a x) (foldl_max_init_le ys (max a x))
    · exact ih (max a y) x hx2

theorem foldl_max_mem (l : List Nat) (a : Nat) :
    l.foldl max a = a ∨ l.foldl max a ∈ l := by
  induction l generalizing a with
  | nil => simp
  | cons y ys ih =>
    rcases ih (max a y) with h | h
    · rcases Nat.le_total a y with hle | hle
      · right
        rw [List.foldl_cons, h, max_eq_right hle]
        exact List.mem_cons_self y ys
      · left
        rw [List.foldl_cons, h, max_eq_left hle]
    · right
      rw [List.foldl_cons]
      exact List.mem_cons_of_mem y h

/-- C5 (confirmed): for a nonempty context, the term-frequency feature of
each token equals 0.4 + (1 - 0.4) * freq(w) / max_freq, where max_freq
both bounds and is attained by the token occurrence counts; the spec
example tf ["a", "a", "b"] = [1, 1, 0.7] holds (floats modelled as exact
rationals). -/
theorem c5_term_frequency (cts : List String) (hne : cts ≠ []) (i : Nat) (h : i < cts.length)
    (h2 : i < (tf cts).length) :
    (tf cts)[i] =
      0.4 + (1 - 0.4) * (fdist cts cts[i] : ℚ) / (max_count cts : ℚ) ∧
    (∀ w, w ∈ cts → fdist cts w ≤ max_count cts) ∧
    (∃ w, w ∈ cts ∧ fdist cts w = max_count cts) ∧
    tf ["a", "a", "b"] = [1, 1, 0.7] := by
  refine ⟨by simp [tf], fun w hw => ?_, ?_, ?_⟩
  · exact foldl_max_le _ 0 (fdist cts w) (List.mem_map_of_mem (fdist cts) hw)
  · rcases foldl_max_mem (cts.map (fdist cts)) 0 with h0 | hmem
    · rcases cts with _ | ⟨t, rest⟩
      · exact absurd rfl hne
      · have h1 : fdist (t :: rest) t ≤ max_count (t :: rest) :=
          foldl_max_le _ 0 _ (List.mem_map_of_mem (fdist (t :: rest)) (List.mem_cons_self t rest))
      
        have hfd : 1 ≤ fdist (t :: rest) t := by
          simp [fdist, List.count_cons]
        have h0x : max_count (t :: rest) = 0 := h0
        omega
    · obtain ⟨w, hw, hweq⟩ := List.mem_map.mp hmem
      exact ⟨w, hw, hweq⟩
  · simp [tf, fdist, max_count]
    norm_num

theorem foldl_max_zero_of_all_zero (l : List Nat) (hl : ∀ x ∈ l, x = 0) :
    l.foldl max 0 = 0 := by
  rcases foldl_max_mem l 0 with h | h
  · exact h
  · exact hl _ h

/-- C9 (corrected, amended): each per-token character row is obtained by
lower-casing the token, mapping each character through the fixed table
with UNK on a miss, capping at word_len, and then immediately
right-padding with PAD_ID to exactly word_len at assembly time; every row
therefore has length word_len already before the materializer (see
c9_counterexample), which later pads only the token dimension. -/
theorem c9_char_rows (toks : List String) (wlen : Nat) :
    charRows toks wlen = toks.map (fun tok =>
      (charIdsOfToken tok).take wlen ++
      List.replicate (wlen - ((charIdsOfToken tok).take wlen).length) PAD_ID) ∧
    (∀ tok, charIdsOfToken tok =
      tok.toList.map (fun ch => (char2id ch.toLower).getD UNK_ID)) ∧
    (∀ row, row ∈ charRows toks wlen → row.length = wlen) := by
  have hmain : charRows toks wlen = toks.map (fun tok =>
      (charIdsOfToken tok).take wlen ++
      List.replicate (wlen - ((charIdsOfToken tok).take wlen).length) PAD_ID) := by
    by_cases hw : wlen = 0
    · subst hw
      have hconst : (toks.map charIdsOfToken).map (fun x => x.take 0) =
          toks.map (fun _ => ([] : List Nat)) := by
        simp only [List.map_map]
        rfl
      unfold charRows padded
      rw [hconst]
      have hlen : (toks.map (fun _ => ([] : List Nat))).map List.length =
          toks.map (fun _ => 0) := by
        simp only [List.map_map]
        rfl
      simp only [if_pos rfl, hlen]
      rw [foldl_max_zero_of_all_zero (toks.map (fun _ => 0)) (by simp)]
      simp only [List.map_map]
      rfl
    · unfold charRows padded
      simp [hw, List.map_map]
  refine ⟨hmain, fun tok => rfl, fun row hrow => ?_⟩
  rw [hmain] at hrow
  obtain ⟨tok, _, hrow⟩ := List.mem_map.mp hrow
  have hlen : ((charIdsOfToken tok).take wlen).length ≤ wlen := by
    simp [List.length_take]
  rw [← hrow]
  simp only [List.length_append, List.length_replicate]
  omega

/-- C9 counterexample: the one-character token with word_len = 3 yields
the row [2, 0, 0] of length 3, not length min(1, 3) = 1: the row is
already padded at assembly time. -/
theorem c9_counterexample :
    (charRows ["a"] 3).map List.length = [3] ∧
    ["a"].map (fun t => min t.length 3) = [1] := by decide

/-- C9 witness: the amended theorem applied to a concrete token list. -/
theorem c9_witness :
    charRows ["ab"] 3 = ["ab"].map (fun tok =>
      (charIdsOfToken tok).take 3 ++
      List.replicate (3 - ((charIdsOfToken tok).take 3).length) PAD_ID) :=
  (c9_char_rows ["ab"] 3).1

/-- C4 witness: the spec example; the repeated question token gives
flag 0, the once-occurring one gives flag 1. -/
theorem c4_witness :
    match_orig ["the", "cat", "sat"] ["the", "cat", "the"] = [0, 1, 0] ∧
    (["the", "cat", "the"] : List String).count "cat" = 1 ∧
    ((match_orig ["the", "cat", "sat"] ["the", "cat", "the"]).get ⟨1, by decide⟩ = 1 ↔
      (["the", "cat", "the"] : List String).count
        ((["the", "cat", "sat"] : List String).get ⟨1, by decide⟩) = 1) := by
  refine ⟨by decide, by decide, ?_⟩
  exact (c4_exact_match_feature ["the", "cat", "sat"] ["the", "cat", "the"] 1
    (by decide) (by decide)).1

/-- C5 witness: the spec example, via the theorem at a concrete index. -/
theorem c5_witness : tf ["a", "a", "b"] = [1, 1, 0.7] :=
  (c5_term_frequency ["a", "b"] (by decide) 0 (by decide) (by decide)).2.2.2

theorem makeBatchesAux_join {α : Type} (bs : Nat) (hbs : 0 < bs) :
    ∀ (fuel : Nat) (xs : List α), xs.length ≤ fuel →
      (makeBatchesAux bs fuel xs).flatten = xs := by
  intro fuel
  induction fuel with
  | zero =>
    intro xs h
    have hx : xs = [] := List.eq_nil_of_length_eq_zero (Nat.le_zero.mp h)
    subst hx
    rfl
  | succ f ih =>
    intro xs h
    cases xs with
    | nil => rfl
    | cons x rest =>
      have hd : ((x :: rest).drop bs).length ≤ f := by
        simp only [List.length_drop, List.length_cons]
        simp only [List.length_cons] at h
        omega
      calc (makeBatchesAux bs (f + 1) (x :: rest)).flatten
          = (x :: rest).take bs ++ (makeBatchesAux bs f ((x :: rest).drop bs)).flatten := rfl
        _ = (x :: rest).take bs ++ (x :: rest).drop bs := by rw [ih _ hd]
        _ = x :: rest := List.take_append_drop bs (x :: rest)

theorem makeBatchesAux_sublist {α : Type} (bs : Nat) :
    ∀ (fuel : Nat) (xs : List α) (b : List α), b ∈ makeBatchesAux bs fuel xs →
      b.Sublist xs := by
  intro fuel
  induction fuel with
  | zero =>
    intro xs b hb
    cases xs <;> cases hb
  | succ f ih =>
    intro xs b hb
    cases xs with
    | nil => cases hb
    | cons x rest =>
      rcases List.mem_cons.mp hb with rfl | hb2
      · exact List.take_sublist bs (x :: rest)
      · exact (ih _ b hb2).trans (List.drop_sublist bs (x :: rest))

theorem makeBatchesAux_ne_nil {α : Type} (bs : Nat) (hbs : 0 < bs) :
    ∀ (fuel : Nat) (xs : List α) (b : List α), b ∈ makeBatchesAux bs fuel xs →
      b ≠ [] := by
  intro fuel
  induction fuel with
  | zero => intro xs b hb; cases xs <;> cases hb
  | succ f ih =>
    intro xs b hb
    cases xs with
    | nil => cases hb
    | cons x rest =>
      rcases List.mem_cons.mp hb with rfl | hb2
      · obtain ⟨k, hk⟩ := Nat.exists_eq_add_of_lt hbs
        rw [hk]
        simp [List.take_cons]
      · exact ih _ b hb2

theorem makeBatchesAux_len_le {α : Type} (bs : Nat) :
    ∀ (fuel : Nat) (xs : List α) (b : List α), b ∈ makeBatchesAux bs fuel xs →
      b.length ≤ bs := by
  intro fuel
  induction fuel with
  | zero => intro xs b hb; cases xs <;> cases hb
  | succ f ih =>
    intro xs b hb
    cases xs with
    | nil => cases hb
    | cons x rest =>
      rcases List.mem_cons.mp hb with rfl | hb2
      · simp only [List.length_take]
        omega
      · exact ih _ b hb2

theorem makeBatchesAux_pairwise {α : Type} (bs : Nat) (hbs : 0 < bs) :
    ∀ (fuel : Nat) (xs : List α),
      (makeBatchesAux bs fuel xs).Pairwise
        (fun b1 b2 => b1.length = bs ∨ b2.length = bs) := by
  intro fuel
  induction fuel with
  | zero => intro xs; cases xs <;> simp [makeBatchesAux]
  | succ f ih =>
    intro xs
    cases xs with
    | nil => simp [makeBatchesAux]
    | cons x rest =>
      refine List.pairwise_cons.mpr ⟨fun b2 hb2 => ?_, ih _⟩
      by_cases hdrop : (x :: rest).drop bs = []
      · rw [hdrop] at hb2
        cases f <;> cases hb2
      · left
        have hlt : bs < (x :: rest).length := by
          by_contra hge
          exact hdrop (List.drop_eq_nil_of_le (by omega))
        simp only [List.length_take, List.length_cons]
        simp only [List.length_cons] at hlt
        omega

theorem makeBatchesAux_dropLast_full {α : Type} (bs : Nat) (hbs : 0 < bs) :
    ∀ (fuel : Nat) (xs : List α) (b : List α),
      b ∈ (makeBatchesAux bs fuel xs).dropLast → b.length = bs := by
  intro fuel
  induction fuel with
  | zero => intro xs b hb; cases xs <;> cases hb
  | succ f ih =>
    intro xs b hb
    cases xs with
    | nil => cases hb
    | cons x rest =>
      rcases htail : makeBatchesAux bs f ((x :: rest).drop bs) with _ | ⟨c, cs⟩
      · rw [show makeBatchesAux bs (f + 1) (x :: rest)
            = (x :: rest).take bs :: makeBatchesAux bs f ((x :: rest).drop bs) from rfl,
          htail] at hb
        simp at hb
      · rw [show makeBatchesAux bs (f + 1) (x :: rest)
            = (x :: rest).take bs :: makeBatchesAux bs f ((x :: rest).drop bs) from rfl,
          htail, List.dropLast_cons₂] at hb
        rcases List.mem_cons.mp hb with rfl | hb2
        · have hdrop : (x :: rest).drop bs ≠ [] := by
            intro hnil
            rw [hnil] at htail
            cases f <;> simp [makeBatchesAux] at htail
          have hlt : bs < (x :: rest).length := by
            by_contra hge
            exact hdrop (List.drop_eq_nil_of_le (by omega))
          simp only [List.length_take, List.length_cons]
          simp only [List.length_cons] at hlt
          omega
        · rw [← htail] at hb2
          exact ih _ b hb2

theorem makeBatchesAux_all_full {α : Type} (bs : Nat) (hbs : 0 < bs) :
    ∀ (fuel : Nat) (xs : List α), xs.length ≤ fuel → bs ∣ xs.length →
      ∀ b ∈ makeBatchesAux bs fuel xs, b.length = bs := by
  intro fuel
  induction fuel with
  | zero => intro xs h hdvd b hb; cases xs <;> cases hb
  | succ f ih =>
    intro xs h hdvd b hb
    cases xs with
    | nil => cases hb
    | cons x rest =>
      have hge : bs ≤ (x :: rest).length := Nat.le_of_dvd (by simp) hdvd
      rcases List.mem_cons.mp hb with rfl | hb2
      · simp only [List.length_take, List.length_cons]
        simp only [List.length_cons] at hge
        omega
      · refine ih ((x :: rest).drop bs) ?_ ?_ b hb2
        · simp only [List.length_drop, List.length_cons]
          simp only [List.length_cons] at h
          omega
        · rcases hdvd with ⟨k, hk⟩
          refine ⟨k - 1, ?_⟩
          have hmul : bs * k - bs = bs * (k - 1) := by
            rw [Nat.mul_sub, Nat.mul_one]
          simp only [List.length_drop, hk, hmul]

theorem makeBatches_join {α : Type} (bs : Nat) (hbs : 0 < bs) (xs : List α) :
    (makeBatches bs xs).flatten = xs :=
  makeBatchesAux_join bs hbs xs.length xs le_rfl

theorem makeBatches_sublist {α : Type} (bs : Nat) (xs : List α)
    (b : List α) (hb : b ∈ makeBatches bs xs) : b.Sublist xs :=
  makeBatchesAux_sublist bs xs.length xs b hb

theorem sortByQnLen_perm (l : List RawExample) : (sortByQnLen l).Perm l :=
  List.perm_insertionSort qnLenLe l

theorem sortByQnLen_sorted (l : List RawExample) : List.Sorted qnLenLe (sortByQnLen l) :=
  List.sorted_insertionSort qnLenLe l

/-- C7 (confirmed): in every refill the pooled examples are sorted
ascending by question length, the chunks concatenate back to the sorted
pool (contiguous slicing), every chunk except possibly the last has
exactly batch_size examples, the shuffle only permutes whole chunks
(the produced batch list is a permutation of the chunk list and every
produced batch is one of the chunks), and within every produced batch the
question lengths are non-decreasing. -/
theorem c7_bucket_order (cfg : Config) (shuffle : Shuffler) (exs : List RawExample)
    (hbs : 0 < cfg.batch_size) :
    (sortByQnLen exs).Perm exs ∧
    List.Sorted qnLenLe (sortByQnLen exs) ∧
    (makeBatches cfg.batch_size (sortByQnLen exs)).flatten = sortByQnLen exs ∧
    (∀ b ∈ (makeBatches cfg.batch_size (sortByQnLen exs)).dropLast,
      b.length = cfg.batch_size) ∧
    (bucketBatches cfg shuffle exs).Perm (makeBatches cfg.batch_size (sortByQnLen exs)) ∧
    (∀ b ∈ bucketBatches cfg shuffle exs,
      b ∈ makeBatches cfg.batch_size (sortByQnLen exs) ∧ List.Sorted qnLenLe b) := by
  refine ⟨sortByQnLen_perm exs, sortByQnLen_sorted exs, makeBatches_join _ hbs _,
    fun b hb => makeBatchesAux_dropLast_full _ hbs _ _ b hb,
    (shuffle _).2, fun b hb => ?_⟩
  have hmem : b ∈ makeBatches cfg.batch_size (sortByQnLen exs) :=
    ((shuffle _).2).mem_iff.mp hb
  exact ⟨hmem, List.Pairwise.sublist (makeBatches_sublist _ _ b hmem)
    (sortByQnLen_sorted exs)⟩

/-- C7 witness: the theorem applied to a concrete two-example pool. -/
theorem c7_witness : (sortByQnLen [exTrunc, exSpan]).Perm [exTrunc, exSpan] :=
  (c7_bucket_order cfgW idShuffle [exTrunc, exSpan] (by decide)).1

theorem refillLoop_exhaust_or_cap (word2id : String → Option Nat)
    (mcids_dict : Nat → Option Nat) (cfg : Config) :
    ∀ (stream : List Triple) (acc exs : List RawExample) (rest : List Triple),
      refillLoop word2id mcids_dict cfg stream acc = some (exs, rest) →
      rest = [] ∨ exs.length = cfg.batch_size * 160 := by
  intro stream
  induction stream with
  | nil =>
    intro acc exs rest h
    simp only [refillLoop, Option.some.injEq, Prod.mk.injEq] at h
    exact Or.inl h.2.symm
  | cons t rest2 ih =>
    intro acc exs rest h
    simp only [refillLoop] at h
    rcases hassem : assemble word2id mcids_dict cfg t.1 t.2.1 t.2.2 with _ | _ | e2
    · simp only [hassem] at h
      exact Option.noConfusion h
    · simp only [hassem] at h
      exact ih acc exs rest h
    · simp only [hassem] at h
      split at h
      next hcap =>
        simp only [Option.some.injEq, Prod.mk.injEq] at h
        exact Or.inr (h.1 ▸ hcap)
      next => exact ih (acc ++ [e2]) exs rest h

theorem refillLoop_mem (word2id : String → Option Nat) (mcids_dict : Nat → Option Nat)
    (cfg : Config) (P : RawExample → Prop)
    (hP : ∀ c q s e, assemble word2id mcids_dict cfg c q s = .ok e → P e) :
    ∀ (stream : List Triple) (acc exs : List RawExample) (rest : List Triple),
      (∀ e ∈ acc, P e) →
      refillLoop word2id mcids_dict cfg stream acc = some (exs, rest) →
      ∀ e ∈ exs, P e := by
  intro stream
  induction stream with
  | nil =>
    intro acc exs rest hacc h
    simp only [refillLoop, Option.some.injEq, Prod.mk.injEq] at h
    exact h.1 ▸ hacc
  | cons t rest2 ih =>
    intro acc exs rest hacc h
    simp only [refillLoop] at h
    rcases hassem : assemble word2id mcids_dict cfg t.1 t.2.1 t.2.2 with _ | _ | e2
    · simp only [hassem] at h
      exact Option.noConfusion h
    · simp only [hassem] at h
      exact ih acc exs rest hacc h
    · simp only [hassem] at h
      have hacc2 : ∀ e ∈ acc ++ [e2], P e := by
        intro e he
        rcases List.mem_append.mp he with he2 | he2
        · exact hacc e he2
        · rw [List.mem_singleton.mp he2]
          exact hP t.1 t.2.1 t.2.2 e2 hassem
      split at h
      next =>
        simp only [Option.some.injEq, Prod.mk.injEq] at h
        exact h.1 ▸ hacc2
      next => exact ih (acc ++ [e2]) exs rest hacc2 h

theorem shuffle_nil (shuffle : Shuffler) : (shuffle []).val = [] :=
  List.Perm.eq_nil (shuffle []).2

theorem genLoop_nil (word2id : String → Option Nat) (mcids_dict : Nat → Option Nat)
    (cfg : Config) (shuffle : Shuffler) (fuel : Nat) :
    genLoop word2id mcids_dict cfg shuffle (fuel + 1) [] = some [] := by
  have h1 : makeBatches cfg.batch_size (sortByQnLen []) = [] := rfl
  simp only [genLoop, refillLoop, bucketBatches]
  rw [h1, shuffle_nil shuffle]
  simp

theorem materialize_dims (cfg : Config) (chunk : List RawExample) :
    (materialize cfg chunk).batch_size = chunk.length ∧
    (materialize cfg chunk).context_ids.length = chunk.length ∧
    (materialize cfg chunk).context_mask.length = chunk.length ∧
    (materialize cfg chunk).context_tokens.length = chunk.length ∧
    (materialize cfg chunk).qn_ids.length = chunk.length ∧
    (materialize cfg chunk).qn_mask.length = chunk.length ∧
    (materialize cfg chunk).qn_tokens.length = chunk.length ∧
    (materialize cfg chunk).ans_span.length = chunk.length ∧
    (materialize cfg chunk).ans_tokens.length = chunk.length ∧
    (materialize cfg chunk).feats.length = chunk.length ∧
    (materialize cfg chunk).char_ids.length = chunk.length ∧
    (materialize cfg chunk).char_mask.length = chunk.length ∧
    (materialize cfg chunk).commonQ_mask.length = chunk.length ∧
    (materialize cfg chunk).commonQ_emb_indices.length = chunk.length ∧
    (materialize cfg chunk).charQ_ids.length = chunk.length ∧
    (materialize cfg chunk).charQ_mask.length = chunk.length ∧
    (materialize cfg chunk).commonC_mask.length = chunk.length ∧
    (materialize cfg chunk).commonC_emb_indices.length = chunk.length := by
  unfold materialize padded paddedBool padded2Rows padded2Feats
  simp

/-- C2 (corrected, amended): for every batch yielded by the generator,
every field of the Batch record has leading dimension equal to the number
of examples in the batch (its batch_size field), the batch is nonempty and
no larger than the configured batch_size, and across the whole stream at
most one batch is smaller than batch_size.  The smaller batch need not be
the final one: the refill shuffles the chunk order (see
c2_counterexample). -/
theorem c2_batch_dims_and_sizes (word2id : String → Option Nat)
    (mcids_dict : Nat → Option Nat) (cfg : Config) (shuffle : Shuffler)
    (hbs : 0 < cfg.batch_size) :
    ∀ (fuel : Nat) (stream : List Triple) (out : List Batch),
      genLoop word2id mcids_dict cfg shuffle fuel stream = some out →
      (∀ b ∈ out,
        (b.context_ids.length = b.batch_size ∧
         b.context_mask.length = b.batch_size ∧
         b.context_tokens.length = b.batch_size ∧
         b.qn_ids.length = b.batch_size ∧
         b.qn_mask.length = b.batch_size ∧
         b.qn_tokens.length = b.batch_size ∧
         b.ans_span.length = b.batch_size ∧
         b.ans_tokens.length = b.batch_size ∧
         b.feats.length = b.batch_size ∧
         b.char_ids.length = b.batch_size ∧
         b.char_mask.length = b.batch_size ∧
         b.commonQ_mask.length = b.batch_size ∧
         b.commonQ_emb_indices.length = b.batch_size ∧
         b.charQ_ids.length = b.batch_size ∧
         b.charQ_mask.length = b.batch_size ∧
         b.commonC_mask.length = b.batch_size ∧
         b.commonC_emb_indices.length = b.batch_size) ∧
        0 < b.batch_size ∧ b.batch_size ≤ cfg.batch_size) ∧
      out.Pairwise (fun b1 b2 =>
        b1.batch_size = cfg.batch_size ∨ b2.batch_size = cfg.batch_size) := by
  intro fuel
  induction fuel with
  | zero =>
    intro stream out h
    exact Option.noConfusion h
  | succ f ih =>
    intro stream out h
    simp only [genLoop] at h
    rcases hre : refillLoop word2id mcids_dict cfg stream [] with _ | ⟨exs, rest⟩
    · simp only [hre] at h
      exact Option.noConfusion h
    · simp only [hre] at h
      by_cases hB : (bucketBatches cfg shuffle exs).isEmpty
      · rw [if_pos hB] at h
        obtain rfl : ([] : List Batch) = out := Option.some.inj h
        exact ⟨by simp, by simp⟩
      · rw [if_neg hB] at h
        rcases ht : genLoop word2id mcids_dict cfg shuffle f rest with _ | tail
        · simp only [ht] at h
          exact Option.noConfusion h
        · simp only [ht] at h
          obtain rfl : (bucketBatches cfg shuffle exs).map (materialize cfg) ++ tail = out :=
            Option.some.inj h
          have hperm : (bucketBatches cfg shuffle exs).Perm
              (makeBatches cfg.batch_size (sortByQnLen exs)) := (shuffle _).2
          constructor
          · intro b hb
            rcases List.mem_append.mp hb with hb2 | hb2
            · obtain ⟨chunk, hcm, rfl⟩ := List.mem_map.mp hb2
              have hcm2 : chunk ∈ makeBatches cfg.batch_size (sortByQnLen exs) :=
                hperm.mem_iff.mp hcm
              have hlen_le : chunk.length ≤ cfg.batch_size :=
                makeBatchesAux_len_le cfg.batch_size _ _ chunk hcm2
              have hne : chunk ≠ [] :=
                makeBatchesAux_ne_nil cfg.batch_size hbs _ _ chunk hcm2
              obtain ⟨d0, d1, d2, d3, d4, d5, d6, d7, d8, d9, d10, d11, d12, d13,
                d14, d15, d16, d17⟩ := materialize_dims cfg chunk
              refine ⟨⟨d1.trans d0.symm, d2.trans d0.symm, d3.trans d0.symm,
                d4.trans d0.symm, d5.trans d0.symm, d6.trans d0.symm, d7.trans d0.symm,
                d8.trans d0.symm, d9.trans d0.symm, d10.trans d0.symm, d11.trans d0.symm,
                d12.trans d0.symm, d13.trans d0.symm, d14.trans d0.symm, d15.trans d0.symm,
                d16.trans d0.symm, d17.trans d0.symm⟩, ?_, ?_⟩
              · rw [d0]
                exact List.length_pos.mpr hne
              · rw [d0]
                exact hlen_le
            · exact ((ih rest tail ht).1) b hb2
          · have hpair_chunks : (makeBatches cfg.batch_size (sortByQnLen exs)).Pairwise
                (fun c1 c2 => c1.length = cfg.batch_size ∨ c2.length = cfg.batch_size) :=
              makeBatchesAux_pairwise cfg.batch_size hbs _ _
            have hpair_B : (bucketBatches cfg shuffle exs).Pairwise
                (fun c1 c2 => c1.length = cfg.batch_size ∨ c2.length = cfg.batch_size) :=
              (hperm.pairwise_iff (fun hab => hab.symm)).mpr hpair_chunks
            have hpair_map : ((bucketBatches cfg shuffle exs).map (materialize cfg)).Pairwise
                (fun b1 b2 =>
                  b1.batch_size = cfg.batch_size ∨ b2.batch_size = cfg.batch_size) := by
              rw [List.pairwise_map]
              refine hpair_B.imp ?_
              intro c1 c2 h12
              rcases h12 with h12 | h12
              · exact Or.inl ((materialize_dims cfg c1).1.trans h12)
              · exact Or.inr ((materialize_dims cfg c2).1.trans h12)
            refine List.pairwise_append.mpr ⟨hpair_map, (ih rest tail ht).2, ?_⟩
            intro b1 hb1 b2 hb2
            rcases refillLoop_exhaust_or_cap word2id mcids_dict cfg stream [] exs rest hre
              with hrest | hcap
            · subst hrest
              rcases f with _ | f2
              · exact Option.noConfusion ht
              · rw [genLoop_nil] at ht
                obtain rfl : ([] : List Batch) = tail := Option.some.inj ht
                cases hb2
            · left
              obtain ⟨chunk, hcm, rfl⟩ := List.mem_map.mp hb1
              have hcm2 : chunk ∈ makeBatches cfg.batch_size (sortByQnLen exs) :=
                hperm.mem_iff.mp hcm
              have hfull : chunk.length = cfg.batch_size := by
                refine makeBatchesAux_all_full cfg.batch_size hbs
                  (sortByQnLen exs).length (sortByQnLen exs) le_rfl ?_ chunk hcm2
                rw [(sortByQnLen_perm exs).length_eq, hcap]
                exact ⟨160, rfl⟩
              exact (materialize_dims cfg chunk).1.trans hfull

theorem genLoop_chunks (word2id : String → Option Nat) (mcids_dict : Nat → Option Nat)
    (cfg : Config) (shuffle : Shuffler) (P : RawExample → Prop)
    (hP : ∀ c q s e, assemble word2id mcids_dict cfg c q s = .ok e → P e) :
    ∀ (fuel : Nat) (stream : List Triple) (out : List Batch),
      genLoop word2id mcids_dict cfg shuffle fuel stream = some out →
      ∀ b ∈ out, ∃ chunk : List RawExample,
        b = materialize cfg chunk ∧ ∀ e ∈ chunk, P e := by
  intro fuel
  induction fuel with
  | zero =>
    intro stream out h
    exact Option.noConfusion h
  | succ f ih =>
    intro stream out h
    simp only [genLoop] at h
    rcases hre : refillLoop word2id mcids_dict cfg stream [] with _ | ⟨exs, rest⟩
    · simp only [hre] at h
      exact Option.noConfusion h
    · simp only [hre] at h
      by_cases hB : (bucketBatches cfg shuffle exs).isEmpty
      · rw [if_pos hB] at h
        obtain rfl : ([] : List Batch) = out := Option.some.inj h
        simp
      · rw [if_neg hB] at h
        rcases ht : genLoop word2id mcids_dict cfg shuffle f rest with _ | tail
        · simp only [ht] at h
          exact Option.noConfusion h
        · simp only [ht] at h
          obtain rfl : (bucketBatches cfg shuffle exs).map (materialize cfg) ++ tail = out :=
            Option.some.inj h
          intro b hb
          rcases List.mem_append.mp hb with hb2 | hb2
          · obtain ⟨chunk, hcm, rfl⟩ := List.mem_map.mp hb2
            refine ⟨chunk, rfl, fun e he => ?_⟩
            have hcm2 : chunk ∈ makeBatches cfg.batch_size (sortByQnLen exs) :=
              ((shuffle _).2).mem_iff.mp hcm
            have hsub : chunk.Sublist (sortByQnLen exs) :=
              makeBatches_sublist cfg.batch_size _ chunk hcm2
            have hes : e ∈ sortByQnLen exs := hsub.subset he
            have hex : e ∈ exs := (sortByQnLen_perm exs).mem_iff.mp hes
            exact refillLoop_mem word2id mcids_dict cfg P hP stream [] exs rest
              (by simp) hre e hex
          · exact ih rest tail ht b hb2

theorem padded_map_general (l : List (List Nat)) (L : Nat) :
    ∃ M, padded l L = l.map (fun x => x ++ List.replicate (M - x.length) PAD_ID) :=
  ⟨_, rfl⟩

theorem sum_map_indicator_no_pad (ids : List Nat) (hpad : PAD_ID ∉ ids) :
    (ids.map fun id => if id = PAD_ID then 0 else 1).sum = ids.length := by
  induction ids with
  | nil => simp
  | cons a rest ih =>
    have ha : a ≠ PAD_ID := fun hh => hpad (hh ▸ List.mem_cons_self a rest)
    have hrest : PAD_ID ∉ rest := fun hh => hpad (List.mem_cons_of_mem a hh)
    simp [ha, ih hrest]
    omega

theorem toMask_sum_no_pad (ids : List Nat) (k : Nat) (hpad : PAD_ID ∉ ids) :
    (toMask (ids ++ List.replicate k PAD_ID)).sum = ids.length := by
  unfold toMask
  rw [List.map_append, List.sum_append, sum_map_indicator_no_pad ids hpad]
  simp

theorem pad_not_mem_ids (word2id : String → Option Nat)
    (hpadfree : ∀ w n, word2id w = some n → n ≠ PAD_ID) (l : String) :
    PAD_ID ∉ (sentence_to_token_ids l word2id).2 := by
  intro hmem
  simp only [sentence_to_token_ids] at hmem
  obtain ⟨w, _, hw⟩ := List.mem_map.mp hmem
  rcases hww : word2id w with _ | n
  · rw [hww] at hw
    simp only [Option.getD_none] at hw
    exact absurd hw (by decide)
  · rw [hww] at hw
    simp only [Option.getD_some] at hw
    exact hpadfree w n hww hw

theorem assemble_no_pad_min (word2id : String → Option Nat)
    (mcids_dict : Nat → Option Nat) (cfg : Config) (c q s : String) (e : RawExample)
    (hpadfree : ∀ w n, word2id w = some n → n ≠ PAD_ID)
    (h : assemble word2id mcids_dict cfg c q s = .ok e) :
    (PAD_ID ∉ e.qn_ids ∧ e.qn_ids.length = min e.qn_tokens.length cfg.question_len) ∧
    (PAD_ID ∉ e.context_ids ∧
      e.context_ids.length = min e.context_tokens.length cfg.context_len) := by
  have halign := aligned_lengths_core word2id mcids_dict cfg c q s e h
  obtain ⟨st, en, _, _, _, _, _, _, _, hq, hc⟩ :=
    assemble_ok word2id mcids_dict cfg c q s e h
  refine ⟨⟨?_, halign.2.1⟩, ?_, halign.1.1⟩
  · rcases qnPolicy_some cfg _ _ _ _ _ hq with ⟨_, hout⟩ | ⟨_, _, hout⟩ <;>
      simp only [Prod.mk.injEq] at hout <;>
      rw [hout.1]
    · exact pad_not_mem_ids word2id hpadfree q
    · intro hmem
      exact pad_not_mem_ids word2id hpadfree q (List.mem_of_mem_take hmem)
  · rcases ctxPolicy_some cfg _ _ _ _ _ _ hc with ⟨_, hout⟩ | ⟨_, _, hout⟩ <;>
      simp only [Prod.mk.injEq] at hout <;>
      rw [hout.1]
    · exact pad_not_mem_ids word2id hpadfree c
    · intro hmem
      exact pad_not_mem_ids word2id hpadfree c (List.mem_of_mem_take hmem)

/-- C8 (confirmed): for every yielded batch and every example row in it,
assuming no vocabulary id equals PAD_ID, the row sum of qn_mask equals
min(original question length, question_len) and the row sum of
context_mask equals min(original context length, context_len), the
original lengths being those of the untruncated token lists. -/
theorem c8_mask_row_sums (word2id : String → Option Nat) (mcids_dict : Nat → Option Nat)
    (cfg : Config) (shuffle : Shuffler)
    (hpadfree : ∀ w n, word2id w = some n → n ≠ PAD_ID) :
    ∀ (fuel : Nat) (stream : List Triple) (out : List Batch),
      genLoop word2id mcids_dict cfg shuffle fuel stream = some out →
      ∀ b ∈ out,
        (∀ p ∈ b.qn_mask.zip b.qn_tokens, p.1.sum = min p.2.length cfg.question_len) ∧
        (∀ p ∈ b.context_mask.zip b.context_tokens,
          p.1.sum = min p.2.length cfg.context_len) := by
  intro fuel stream out h b hb
  obtain ⟨chunk, rfl, hPall⟩ := genLoop_chunks word2id mcids_dict cfg shuffle
    (fun e => (PAD_ID ∉ e.qn_ids ∧
        e.qn_ids.length = min e.qn_tokens.length cfg.question_len) ∧
      (PAD_ID ∉ e.context_ids ∧
        e.context_ids.length = min e.context_tokens.length cfg.context_len))
    (fun c q s e hok => assemble_no_pad_min word2id mcids_dict cfg c q s e hpadfree hok)
    fuel stream out h b hb
  constructor
  · obtain ⟨Mq, hMq⟩ := padded_map_general (chunk.map (fun e => e.qn_ids)) cfg.question_len
    have h1 : (materialize cfg chunk).qn_mask = chunk.map
        (fun e => toMask (e.qn_ids ++ List.replicate (Mq - e.qn_ids.length) PAD_ID)) := by
      show (padded (chunk.map (fun e => e.qn_ids)) cfg.question_len).map toMask = _
      rw [hMq, List.map_map, List.map_map]
      rfl
    have h2 : (materialize cfg chunk).qn_tokens = chunk.map (fun e => e.qn_tokens) := rfl
    rw [h1, h2, List.zip_map']
    intro p hp
    obtain ⟨e, he, rfl⟩ := List.mem_map.mp hp
    have hP := (hPall e he).1
    show (toMask (e.qn_ids ++ List.replicate (Mq - e.qn_ids.length) PAD_ID)).sum = _
    rw [toMask_sum_no_pad e.qn_ids _ hP.1]
    exact hP.2
  · obtain ⟨Mc, hMc⟩ := padded_map_general (chunk.map (fun e => e.context_ids)) cfg.context_len
    have h1 : (materialize cfg chunk).context_mask = chunk.map
        (fun e => toMask (e.context_ids ++ List.replicate (Mc - e.context_ids.length) PAD_ID)) := by
      show (padded (chunk.map (fun e => e.context_ids)) cfg.context_len).map toMask = _
      rw [hMc, List.map_map, List.map_map]
      rfl
    have h2 : (materialize cfg chunk).context_tokens = chunk.map (fun e => e.context_tokens) := rfl
    rw [h1, h2, List.zip_map']
    intro p hp
    obtain ⟨e, he, rfl⟩ := List.mem_map.mp hp
    have hP := (hPall e he).2
    show (toMask (e.context_ids ++ List.replicate (Mc - e.context_ids.length) PAD_ID)).sum = _
    rw [toMask_sum_no_pad e.context_ids _ hP.1]
    exact hP.2

theorem w2idW_pad_free : ∀ w n, w2idW w = some n → n ≠ PAD_ID := by
  intro w n h
  simp only [w2idW] at h
  split at h
  · cases h
    decide
  · split at h
    · cases h
      decide
    · exact Option.noConfusion h

theorem headI_mem_of_length_pos {α : Type} [Inhabited α] (l : List α) (h : 0 < l.length) :
    l.headI ∈ l := by
  cases l with
  | nil => simp at h
  | cons a rest => exact List.mem_cons_self a rest

/-- C8 witness: the theorem applied to the first mask row of a concrete
one-batch stream. -/
theorem c8_witness : p8.1.sum = min p8.2.length cfgW.question_len := by
  have hb : b8 ∈ outW8 := headI_mem_of_length_pos outW8 (by decide)
  have hp : p8 ∈ b8.qn_mask.zip b8.qn_tokens := headI_mem_of_length_pos _ (by decide)
  exact ((c8_mask_row_sums w2idW mcidsW cfgW idShuffle w2idW_pad_free 2
    [("a a b", "a c", "0 1")] outW8 rfl) b8 hb).1 p8 hp

/-- C2 counterexample: three examples with batch_size 2 under the
reversal permutation of random.shuffle yield batch sizes [1, 2]: the short
batch is produced first, refuting that a short batch occurs only as the
final batch of the stream. -/
theorem c2_counterexample :
    (get_batch_generator w2idW mcidsW cfgW revShuffle
      ["a a b", "b b", "a"] ["a", "b b", "a b"] ["0 0", "0 0", "0 0"]).map
      (fun out => out.map (fun b => b.batch_size)) = some [1, 2] ∧
    cfgW.batch_size = 2 := ⟨by decide, rfl⟩

/-- C2 witness: the amended theorem applied to a concrete three-example
stream. -/
theorem c2_witness :
    outW2.Pairwise (fun b1 b2 =>
      b1.batch_size = cfgW.batch_size ∨ b2.batch_size = cfgW.batch_size) :=
  (c2_batch_dims_and_sizes w2idW mcidsW cfgW idShuffle (by decide) 4
    [("a a b", "a", "0 0"), ("b b", "b b", "0 0"), ("a", "a b", "0 0")] outW2 rfl).2
